import Mathlib

/-!
Verification development for the lineage-driven metadata recommendation and
propagation engine of the governance-metadata-propagation repository.

The Python sources are shallowly embedded as executable Lean definitions:
  * `agent/plugins/similarity_engine.py`  — term matching engine
  * `dataplex_integration/lineage_propagation.py` — lineage resolver,
    semantic-mismatch penalty and transformation-logic extraction
  * `dataplex_integration/propagate_metadata.py` — confidence decision bands
  * `agent/plugins/lineage_plugin.py` — recursive upstream description search
  * `agent/plugins/glossary_plugin.py` — idempotent entry-link application

Python floats are modelled as exact rationals; Python `round(x, 2)` is
modelled as round-half-to-even at two decimals.
-/

namespace GovMeta

/-! ## Rounding (model of Python `round(x, 2)`, round-half-to-even) -/

def round2 (x : ℚ) : ℚ :=
  let y : ℚ := 100 * x
  let f : ℤ := ⌊y⌋
  let r : ℚ := y - (f : ℚ)
  if r < 1/2 then (f : ℚ) / 100
  else if 1/2 < r then ((f : ℚ) + 1) / 100
  else if Even f then (f : ℚ) / 100 else ((f : ℚ) + 1) / 100

/-! ## String utilities

Models of the small string manipulations the Python code performs.  Strings
are processed through their character lists; only ASCII data occurs in the
repository's inputs, matching Python `str.lower()` on that range.
-/

def lowerStr (s : String) : String := String.mk (s.data.map Char.toLower)

def isLowAlnum (c : Char) : Bool :=
  (('a' ≤ c && c ≤ 'z') || ('0' ≤ c && c ≤ '9'))

/-- Characters after `text.lower()` and `re.sub(r'[^a-z0-9]', ' ', text)`. -/
def normChars (s : String) : List Char :=
  s.data.map (fun c => let l := c.toLower; if isLowAlnum l then l else ' ')

def splitSpacesGo : List Char → List Char → List String
  | [], cur => if cur.isEmpty then [] else [String.mk cur.reverse]
  | c :: rest, cur =>
    if c = ' ' then
      (if cur.isEmpty then splitSpacesGo rest []
       else String.mk cur.reverse :: splitSpacesGo rest [])
    else splitSpacesGo rest (c :: cur)

/-- Token list of `SimilarityEngine._normalize(text).split()`. -/
def normTokens (s : String) : List String := splitSpacesGo (normChars s) []

/-- Python `set(...)` of the normalized tokens, as a duplicate-free list. -/
def tokSet (s : String) : List String := (normTokens s).dedup

/-- Cardinality of `A ∩ B` for duplicate-free `a`. -/
def interCard (a b : List String) : ℕ :=
  (a.filter (fun x => b.contains x)).length

/-- Union `A ∪ B` as a duplicate-free list (for duplicate-free inputs). -/
def unionList (a b : List String) : List String :=
  a ++ b.filter (fun x => !(a.contains x))

def splitCharGo (sep : Char) : List Char → List Char → List String
  | [], cur => [String.mk cur.reverse]
  | c :: rest, cur =>
    if c = sep then String.mk cur.reverse :: splitCharGo sep rest []
    else splitCharGo sep rest (c :: cur)

/-- Python `s.split(sep)[-1]`. -/
def lastSegment (sep : Char) (s : String) : String :=
  (splitCharGo sep s.data []).getLastD ""

/-- Delete every occurrence of `pat` from the character list
(Python `s.replace(pat, "")`), with an explicit fuel for structural
recursion; fuel is instantiated with the list length. -/
def stripLitGo (pat : List Char) : ℕ → List Char → List Char
  | 0, _ => []
  | _ + 1, [] => []
  | n + 1, c :: rest =>
    if pat.isPrefixOf (c :: rest) then
      stripLitGo pat n (rest.drop (pat.length - 1))
    else c :: stripLitGo pat n rest

/-- Python `s.replace(pat, "")` for a non-empty literal `pat`. -/
def removeAll (s pat : String) : String :=
  String.mk (stripLitGo pat.data s.data.length s.data)

/-- Naive substring containment, Python `needle in hay`. -/
def strContainsGo (needle : List Char) : List Char → Bool
  | [] => needle.isEmpty
  | c :: rest => needle.isPrefixOf (c :: rest) || strContainsGo needle rest

def strContains (hay needle : String) : Bool := strContainsGo needle.data hay.data

/-! ## Similarity engine (`agent/plugins/similarity_engine.py`)

Column and term records carry exactly the fields the engine reads.
Embeddings are lists of rationals, with `[]` standing for an absent
(Python-falsy) embedding; the numeric cosine routine of
`vertex_embedder.py` is an external numpy computation and is passed in as
an oracle function, as the engine only forwards to it.
-/

structure Column where
  name : String
  description : String
deriving DecidableEq, Repr

structure Term where
  name : String
  display_name : String
  description : String
deriving DecidableEq, Repr

/-- Model of `SimilarityEngine.calculate_lexical_similarity`: Jaccard similarity on
normalized token sets, the term side enlarged by the term-id tokens. -/
def calculateLexicalSimilarity (colName termDisplay termId : String) : ℚ :=
  let s1 := tokSet colName
  let s2 := if termId = "" then tokSet termDisplay
            else unionList (tokSet termDisplay) (tokSet termId)
  if s1.isEmpty || s2.isEmpty then 0
  else (interCard s1 s2 : ℚ) / ((unionList s1 s2).length : ℚ)

def entityAliases : List (String × String) :=
  [("cust", "customer"), ("prod", "product"), ("txn", "transaction"),
   ("trans", "transaction"), ("acc", "account")]

def entityNames : List String :=
  ["customer", "order", "item", "product", "transaction", "user",
   "account", "membership", "loyalty"]

/-- Model of `SimilarityEngine._get_primary_entity`. -/
def getPrimaryEntity (text : String) : Option String :=
  let toks := normTokens text
  match entityAliases.find? (fun p => toks.contains p.1) with
  | some p => some p.2
  | none => entityNames.find? (fun e => toks.contains e)

def conceptTable : List (String × List String) :=
  [("id", ["id", "identifier", "pk", "fk", "key", "code", "sku"]),
   ("amount", ["amount", "price", "total", "sum", "cost", "value",
               "subtotal", "tax", "discount"]),
   ("timestamp", ["timestamp", "date", "time", "ts", "added", "at",
                  "created", "updated"]),
   ("category", ["category", "group", "type", "class", "genre", "level"])]

/-- Model of `SimilarityEngine._get_concept`. -/
def getConcept (text : String) : Option String :=
  let toks := normTokens text
  (conceptTable.find? (fun p => p.2.any (fun kw => toks.contains kw))).map
    (fun p => p.1)

def conflictEntities : List String :=
  ["customer", "user", "account", "product", "item", "order", "transaction"]

def compatiblePairs : List (String × String) :=
  [("order", "transaction"), ("item", "product"), ("amount", "price"),
   ("date", "timestamp")]

/-- Model of `SimilarityEngine._detect_entity_conflict`. -/
def detectEntityConflict (colName termDisplay termId : String) : Bool :=
  match getPrimaryEntity colName with
  | none => false
  | some ce =>
    match (getPrimaryEntity termDisplay).orElse
        (fun _ => getPrimaryEntity termId) with
    | none => false
    | some te =>
      if ce = te then false
      else if compatiblePairs.any
          (fun p => (ce = p.1 && te = p.2) || (ce = p.2 && te = p.1)) then false
      else conflictEntities.contains ce && conflictEntities.contains te

/-- Model of `SimilarityEngine.calculate_semantic_similarity`: cosine similarity when
both embeddings are available, otherwise keyword overlap between the
descriptions (term side enlarged by the display name), normalized by the
smaller set and capped at 1. -/
def calculateSemanticSimilarity (cosine : List ℚ → List ℚ → ℚ)
    (termEmbs : String → List ℚ) (col : Column) (term : Term)
    (colEmb : List ℚ) : ℚ :=
  let termEmb := termEmbs term.name
  if !colEmb.isEmpty && !termEmb.isEmpty then cosine colEmb termEmb
  else if col.description = "" || term.description = "" then 0
  else
    let s1 := tokSet col.description
    let s2 := unionList (tokSet term.description) (tokSet term.display_name)
    if s1.isEmpty || s2.isEmpty then 0
    else min ((interCard s1 s2 : ℚ) / ((min s1.length s2.length : ℕ) : ℚ)) 1

/-- The running `score` value of `SimilarityEngine.calculate_total_score`
just before `return`: weighted lexical + semantic blend followed by the four
sequential adjustments (entity conflict −0.30, entity match +0.15, concept
alignment +0.10 / mismatch −0.35, exact shared word +0.05).  Sequential
`score -= / +=` updates are written as one sum. -/
def rawScore (cosine : List ℚ → List ℚ → ℚ) (termEmbs : String → List ℚ)
    (col : Column) (term : Term) (colEmb : List ℚ) : ℚ :=
  let colName := col.name
  let colEntity := getPrimaryEntity colName
  let termIdBase := lastSegment '/' term.name
  let lexical := calculateLexicalSimilarity colName term.display_name termIdBase
  let semantic := calculateSemanticSimilarity cosine termEmbs col term colEmb
  let termEntity := (getPrimaryEntity term.display_name).orElse
      (fun _ => getPrimaryEntity termIdBase)
  let colConcept := getConcept colName
  let termConcept := (getConcept term.display_name).orElse
      (fun _ => getConcept termIdBase)
  lexical * (3/10) + semantic * (1/2)
    + (if detectEntityConflict colName term.display_name termIdBase
       then -(3/10) else 0)
    + (match colEntity, termEntity with
       | some a, some b => if a = b then (3/20 : ℚ) else 0
       | _, _ => 0)
    + (match colConcept, termConcept with
       | some a, some b => if a = b then (1/10 : ℚ) else -(7/20)
       | _, _ => 0)
    + (if 0 < interCard (tokSet colName) (tokSet term.display_name)
       then (1/20 : ℚ) else 0)

structure Signals where
  total : ℚ
  lexical : ℚ
  semantic : ℚ
deriving DecidableEq, Repr

/-- Model of `SimilarityEngine.calculate_total_score`: the returned dictionary, with
`total = round(max(0, score), 2)`. -/
def calculateTotalScore (cosine : List ℚ → List ℚ → ℚ)
    (termEmbs : String → List ℚ) (col : Column) (term : Term)
    (colEmb : List ℚ) : Signals :=
  let termIdBase := lastSegment '/' term.name
  { total := round2 (max 0 (rawScore cosine termEmbs col term colEmb))
    lexical := round2
      (calculateLexicalSimilarity col.name term.display_name termIdBase)
    semantic := round2
      (calculateSemanticSimilarity cosine termEmbs col term colEmb) }

structure Suggestion where
  term_name : String
  display_name : String
  confidence : ℚ
  lexical : ℚ
  semantic : ℚ
deriving DecidableEq, Repr

/-- Stable insertion keeping an element before the first strictly smaller
confidence. -/
def insertDesc (x : Suggestion) : List Suggestion → List Suggestion
  | [] => [x]
  | y :: ys => if y.confidence < x.confidence then x :: y :: ys
               else y :: insertDesc x ys

/-- Model of Python's stable `list.sort(key=confidence, reverse=True)`:
a stable descending insertion sort computes the same ordering. -/
def sortDesc (l : List Suggestion) : List Suggestion :=
  l.foldl (fun acc x => insertDesc x acc) []

/-- The tail of `SimilarityEngine.get_ranked_suggestions` after the floor
filter: stable descending sort, competitive filtering at 70% of a top score
above 0.45, then the first five entries. -/
def rankedPost (sugg : List Suggestion) : List Suggestion :=
  let sorted := sortDesc sugg
  let final := match sorted with
    | [] => sorted
    | top :: _ =>
      if (9/20 : ℚ) < top.confidence then
        sorted.filter (fun s => top.confidence * (7/10) ≤ s.confidence)
      else sorted
  final.take 5

/-- Model of `SimilarityEngine.get_ranked_suggestions`: candidates meeting the
absolute 0.30 floor, post-processed by `rankedPost`. -/
def getRankedSuggestions (cosine : List ℚ → List ℚ → ℚ)
    (termEmbs : String → List ℚ) (col : Column) (allTerms : List Term)
    (colEmb : List ℚ) : List Suggestion :=
  rankedPost (allTerms.filterMap (fun term =>
    let sig := calculateTotalScore cosine termEmbs col term colEmb
    if (3/10 : ℚ) ≤ sig.total then
      some ⟨term.name, term.display_name, sig.total, sig.lexical, sig.semantic⟩
    else none))

end GovMeta

namespace GovMeta

/-! ## Lineage resolver (`dataplex_integration/lineage_propagation.py`) -/

/-- Model of `TransformationEnricher.check_semantic_mismatch`: penalty multiplier for
apparently conflicting column semantics. -/
def checkSemanticMismatch (targetCol sourceCol : String) : ℚ :=
  let t := lowerStr targetCol
  let s := lowerStr sourceCol
  if strContains t "date" && strContains s "id" then 1/5
  else if strContains t "id" && strContains s "date" then 1/5
  else if strContains t "amount" &&
      (strContains s "flag" || strContains s "is_") then 1/2
  else 1

/-- Python `s.replace("_", "")`. -/
def stripUnders (s : String) : String :=
  String.mk (s.data.filter (fun c => c ≠ '_'))

/-- Base specificity score of `LineageGraphTraverser.get_column_lineage` for
one offered source field against the target column; `numFields` is the size
of the candidate field list of the link being examined. -/
def baseScore (col field : String) (numFields : ℕ) : ℚ :=
  if field = col then 1
  else if lowerStr field = lowerStr col then 19/20
  else if stripUnders field = stripUnders col then 9/10
  else if strContains field col || strContains col field then 4/5
  else if numFields = 1 then 7/10
  else 1/2

/-- One element of the `links` list returned by the lineage search, keeping
the two entries the resolver reads. An absent source is encoded by an empty
name / field list, which the resolver skips. -/
structure Link where
  source_fqn : String
  source_fields : List String
deriving DecidableEq, Repr

def linkValid (l : Link) : Bool :=
  !(l.source_fqn = "") && !l.source_fields.isEmpty

/-- One scored (link, field) candidate inside the loop of
`get_column_lineage`. -/
structure Cand where
  fqn : String
  field : String
  score : ℚ
  penalty : ℚ
deriving DecidableEq, Repr

/-- The candidate sequence examined by the two nested loops of
`get_column_lineage`, in program order. -/
def candsOf (col : String) (links : List Link) : List Cand :=
  (links.filter linkValid).flatMap (fun l =>
    l.source_fields.map (fun f =>
      let pen := checkSemanticMismatch col f
      ⟨l.source_fqn, f, baseScore col f l.source_fields.length * pen, pen⟩))

/-- The `best_match` / `max_score` accumulation loop: strict improvement
only, so the first candidate attaining the maximal score is kept. -/
def pickAux : List Cand → Option Cand → ℚ → Option Cand
  | [], best, _ => best
  | c :: rest, best, m =>
    if m < c.score then pickAux rest (some c) c.score
    else pickAux rest best m

structure BestMatch where
  source_fqn : String
  source_entity : String
  source_column : String
  confidence : ℚ
  semantic_penalty : Bool
  hop_depth : ℕ
deriving DecidableEq, Repr

/-- The `best_match` dictionary built by `get_column_lineage`. -/
def toBestMatch (depth : ℕ) (c : Cand) : BestMatch :=
  { source_fqn := c.fqn
    source_entity := lastSegment ':' c.fqn
    source_column := c.field
    confidence := round2 c.score
    semantic_penalty := decide (c.penalty < 1)
    hop_depth := depth }

/-- Model of `get_column_lineage` restricted to a single target column, the lineage
query's answer being passed in as `links`. -/
def getColumnLineageFor (col : String) (links : List Link) (depth : ℕ) :
    Option BestMatch :=
  (pickAux (candsOf col links) none (-1)).map (toBestMatch depth)

/-! ## Propagation decision engine (`propagate_metadata.py`, the
`confidence` branches of `propagate_pull`) -/

inductive Decision where
  | AUTO_APPLY
  | REVIEW
  | SKIP
deriving DecidableEq, Repr

/-- The three-way confidence gate of `propagate_pull`:
`> 0.90` auto-apply, `>= 0.70` steward review, otherwise skip. -/
def decision (c : ℚ) : Decision :=
  if 9/10 < c then .AUTO_APPLY
  else if 7/10 ≤ c then .REVIEW
  else .SKIP

/-- One element of the `candidates` list that `propagate_pull` builds for an
undescribed target column (the dictionaries appended at lines 108-114 and
124-130 of `propagate_metadata.py`). -/
structure PullCandidate where
  source_table : String
  source_col : String
  confidence : ℚ
  ctype : String
  desc : String
deriving DecidableEq, Repr

/-- Faithful model of the lineage branch of `propagate_pull` (lines 90-114):
`lineage_sources = upstream_columns_map.get(target_col, [])` retrieves the
best-match *dictionary* that `get_column_lineage` stores per column, so when
lineage exists the very next statement `lineage_source = lineage_sources[0]`
subscripts that dictionary with the integer 0 and raises `KeyError: 0`
outside any handler; only an absent column yields (no) candidates. -/
def pullLineageCandidates (lineageResult : Option BestMatch) :
    Except String (List PullCandidate) :=
  match lineageResult with
  | none => .ok []
  | some _ => .error "KeyError: 0"

/-- The lineage branch of `propagate_pull` with `lineage_sources[0]` read as
the best match itself (the intended list reading, as in
`findDescriptionRecursiveFixed`): split the cleaned source entity, fetch the
source schema, and when the source column carries a description append one
candidate whose confidence is hard-coded 1.0 with type DIRECT_PASSTHROUGH —
independent of whether the source and target column names agree. -/
def pullLineageCandidatesFixed (schema : String → Option (List (String × String)))
    (lineageResult : Option BestMatch) : List PullCandidate :=
  match lineageResult with
  | none => []
  | some ls =>
    let cleanEntity := removeAll ls.source_entity "bigquery:"
    let parts := splitCharGo '.' cleanEntity.data []
    if parts.length = 3 then
      match schema cleanEntity with
      | none => []
      | some fields =>
        match fields.find? (fun f => f.1 = ls.source_column) with
        | none => []
        | some f =>
          if f.2 = "" then []
          else [⟨parts.getD 2 "", ls.source_column, 1, "DIRECT_PASSTHROUGH", f.2⟩]
    else []

end GovMeta

namespace GovMeta

/-! ## Transformation-logic extraction (`TransformationEnricher.extract_column_logic`)

The Python method strips line comments, normalizes whitespace, then runs
`re.search(r"([^,]*?)\s+as\s+`?\b{target}\b`?", sql, re.IGNORECASE)` and
finally keeps the part of group 1 after its last word-bounded `SELECT`.
The regex is modelled operationally: leftmost match position first, then
the shortest (lazy) group, with the greedy whitespace runs and the optional
backtick resolved exactly as the backtracking engine does on word-character
target names.
-/

def isWs (c : Char) : Bool :=
  c = ' ' || c = '\t' || c = '\n' || c = '\r' ||
  c = Char.ofNat 11 || c = Char.ofNat 12

def isWordC (c : Char) : Bool :=
  ('a' ≤ c && c ≤ 'z') || ('A' ≤ c && c ≤ 'Z') || ('0' ≤ c && c ≤ '9') || c = '_'

/-- Remove `--.*` line comments (the newline itself is kept, as `.` does not
match it). -/
def stripCommentsAux : Bool → List Char → List Char
  | _, [] => []
  | true, c :: rest =>
    if c = '\n' then '\n' :: stripCommentsAux false rest
    else stripCommentsAux true rest
  | false, '-' :: '-' :: rest => stripCommentsAux true rest
  | false, c :: rest => c :: stripCommentsAux false rest

/-- Collapse every whitespace run into a single space
(`re.sub(r'\s+', ' ', sql)`); the flag records whether the previous kept
character was such a collapsed space. -/
def collapseWs : Bool → List Char → List Char
  | _, [] => []
  | prev, c :: rest =>
    if isWs c then
      (if prev then collapseWs true rest else ' ' :: collapseWs true rest)
    else c :: collapseWs false rest

/-- Python `.strip()`. -/
def trimWs (cs : List Char) : List Char :=
  ((cs.dropWhile isWs).reverse.dropWhile isWs).reverse

/-- Case-insensitive prefix test. -/
def ciPre : List Char → List Char → Bool
  | [], _ => true
  | _ :: _, [] => false
  | p :: ps, c :: cs => (p.toLower = c.toLower) && ciPre ps cs

def boundaryAfter : List Char → Bool
  | [] => true
  | c :: _ => !isWordC c

/-- Word-bounded occurrence search, the model of
`re.search(rf"\b{word}\b", hay)` for a word made of word characters;
`prev` is the character preceding the unscanned rest. -/
def wordOccursGo (word : List Char) : Option Char → List Char → Bool
  | _, [] => false
  | prev, c :: rest =>
    ((match prev with
      | none => true
      | some p => !isWordC p) &&
     word.isPrefixOf (c :: rest) &&
     boundaryAfter ((c :: rest).drop word.length)) ||
    wordOccursGo word (some c) rest

def wordOccurs (hay word : String) : Bool := wordOccursGo word.data none hay.data

/-- Whether the tail regex `\s+as\s+`?\b{target}\b` matches at the start of
`t` (the part right after the lazily captured group; the word boundary in
front of the target always holds there because the preceding character is a
space or a backtick). -/
def tailMatch (target : List Char) (t : List Char) : Bool :=
  let w1 := t.takeWhile isWs
  if w1.isEmpty then false
  else
    match t.drop w1.length with
    | a :: s2 :: t3 =>
      if (a.toLower = 'a') && (s2.toLower = 's') then
        let w2 := t3.takeWhile isWs
        if w2.isEmpty then false
        else
          let t4 := t3.drop w2.length
          let t5 := match t4 with
            | c :: r => if c = Char.ofNat 96 then r else t4
            | [] => t4
          ciPre target t5 && boundaryAfter (t5.drop target.length)
      else false
    | _ => false

/-- Lazy expansion of the group `[^,]*?` from a fixed start position:
return the least group length whose tail matches, never letting the group
cross a comma. -/
def groupScan (target : List Char) : List Char → ℕ → Option ℕ
  | rest, g =>
    if tailMatch target rest then some g
    else
      match rest with
      | [] => none
      | c :: rest2 => if c = ',' then none else groupScan target rest2 (g + 1)

/-- Leftmost match: try every start position from left to right. -/
def findRegexMatch (target : List Char) : List Char → ℕ → Option (ℕ × ℕ)
  | s, i =>
    match groupScan target s 0 with
    | some g => some (i, g)
    | none =>
      match s with
      | [] => none
      | _ :: rest => findRegexMatch target rest (i + 1)

/-- Suffix after the last word-bounded, case-insensitive `SELECT`
(`re.split(r'\bSELECT\b', expr, flags=re.IGNORECASE)[-1]`), or `none` when
no such keyword occurs. `prev` is the character preceding `cs`. -/
def tailAfterSel (prev : Option Char) (cs : List Char) : Option (List Char) :=
  match cs with
  | [] => none
  | c :: rest =>
    match tailAfterSel (some c) rest with
    | some r => some r
    | none =>
      let bBefore := match prev with
        | none => true
        | some p => !isWordC p
      if bBefore && ciPre ("select".data) cs && boundaryAfter (cs.drop 6) then
        some (cs.drop 6)
      else none

/-- Model of `TransformationEnricher.extract_column_logic`. -/
def extractColumnLogic (sql : String) (targetCol : String) : Option String :=
  if sql = "" then none
  else
    let clean := trimWs (collapseWs false (stripCommentsAux false sql.data))
    match findRegexMatch targetCol.data clean 0 with
    | none => none
    | some (i, g) =>
      let expr := trimWs ((clean.drop i).take g)
      let lastPart := match tailAfterSel none expr with
        | some r => r
        | none => expr
      some (String.mk (trimWs lastPart))

end GovMeta

namespace GovMeta

/-! ## Recursive upstream description search
(`agent/plugins/lineage_plugin.py`, `LineagePlugin._find_description_recursive`)

The plugin's collaborators are abstracted into a `PlexWorld`:
`lineage fqn col` is the per-column result of
`LineageGraphTraverser.get_column_lineage(fqn, [col], depth)[col]` — a
single best-match dictionary per column, as built by `toBestMatch` above;
`schema entity` is the `(field name, description)` list of
`client.get_table(entity).schema` (`none` when the lookup raises, which the
plugin catches); `sql ds tab` is `SQLFetcher.get_transformation_sql`.
-/

structure PlexWorld where
  lineage : String → String → Option BestMatch
  schema : String → Option (List (String × String))
  sql : String → String → Option String

structure FoundRec where
  source_entity : String
  source_column : String
  description : String
  confidence : ℚ
  hop_depth : ℕ
  accumulated_logic : List String
deriving DecidableEq, Repr

/-- The SQL hint computed for the current hop (`logic` in the Python code,
with a Python-falsy empty string treated as absent). -/
def hopLogic (w : PlexWorld) (targetFqn column : String) : Option String :=
  let parts := splitCharGo '.' (removeAll targetFqn "bigquery:").data []
  if parts.length = 3 then
    match w.sql (parts.getD 1 "") (parts.getD 2 "") with
    | some sql =>
      match extractColumnLogic sql column with
      | some l => if l = "" then none else some l
      | none => none
    | none => none
  else none

/-- Faithful model of `_find_description_recursive`.  After the depth guard
and a non-empty lineage lookup, the code evaluates
`sources = upstream.get(column, [])` — which is the best-match *dictionary*
(string keys) that `get_column_lineage` stores per column — runs the
try-protected SQL-hint block, and then executes `source = sources[0]`.
Subscripting that dictionary with the integer `0` raises `KeyError: 0`,
which no surrounding handler catches, so the call never proceeds to the
description check or the recursive hop. -/
def findDescriptionRecursive (w : PlexWorld) (targetFqn column : String)
    (depth maxDepth : ℕ) (_accLogic : List String) :
    Except String (Option FoundRec) :=
  if maxDepth ≤ depth then .ok none
  else
    match w.lineage targetFqn column with
    | none => .ok none
    | some _ => .error "KeyError: 0"

/-- Variant of `_find_description_recursive` with `sources[0]` read as the best match
itself — the behaviour the plugin's own unit test
(`tests/test_recursive_lineage.py`) exercises through its mocks, i.e. the
evident intent of the code.  Structural recursion on the remaining depth
budget `maxDepth - depth`. -/
def findDescFixedGo (w : PlexWorld) :
    ℕ → String → String → ℕ → List String → Option FoundRec
  | 0, _, _, _, _ => none
  | rem + 1, targetFqn, column, depth, accLogic =>
    match w.lineage targetFqn column with
    | none => none
    | some src0 =>
      let lg := hopLogic w targetFqn column
      let accLogic2 := accLogic ++ lg.toList
      -- with a single candidate source, the `for s in sources` reselection
      -- can only bump the confidence of that same source to at least 0.7
      -- when its column name occurs word-bounded in the extracted logic
      let src := match lg with
        | some l =>
          if wordOccurs (lowerStr l) (lowerStr src0.source_column) then
            { src0 with confidence := max src0.confidence (7/10) }
          else src0
        | none => src0
      let srcEntity := removeAll src.source_fqn "bigquery:"
      match w.schema srcEntity with
      | none => none
      | some fields =>
        match fields.find? (fun f => f.1 = src.source_column) with
        | none => none
        | some f =>
          if f.2 = "" then
            findDescFixedGo w rem src.source_fqn src.source_column
              (depth + 1) accLogic2
          else
            some ⟨src.source_entity, src.source_column, f.2, src.confidence,
                  depth, accLogic2⟩

def findDescriptionRecursiveFixed (w : PlexWorld) (targetFqn column : String)
    (depth maxDepth : ℕ) (accLogic : List String) : Option FoundRec :=
  findDescFixedGo w (maxDepth - depth) targetFqn column depth accLogic

/-- The three-table chain of `tests/test_recursive_lineage.py`:
`table_a → table_b → table_c`, where only `table_a.ordered_id` carries a
description. -/
def chainWorld : PlexWorld :=
  { lineage := fun fqn col =>
      if fqn = "bigquery:test-project.ds.table_c" && col = "order_id" then
        some ⟨"bigquery:test-project.ds.table_b", "table_b", "order_id",
              1, false, 0⟩
      else if fqn = "bigquery:test-project.ds.table_b" && col = "order_id" then
        some ⟨"bigquery:test-project.ds.table_a", "table_a", "ordered_id",
              19/20, false, 0⟩
      else none
    schema := fun e =>
      if e = "test-project.ds.table_c" then some [("order_id", "")]
      else if e = "test-project.ds.table_b" then some [("order_id", "")]
      else if e = "test-project.ds.table_a" then
        some [("ordered_id", "The unique identifier for an order")]
      else none
    sql := fun _ _ => none }

/-! ## Idempotent term application
(`agent/plugins/glossary_plugin.py`, `GlossaryPlugin.apply_terms`)

The external Dataplex catalog is abstracted as the list of entry-link ids
already present under the `@bigquery` entry group; `create_entry_link`
either inserts the id or reports an already-exists collision, which the
plugin logs and treats as a skip, not a failure.
-/

/-- The id cleanup of `apply_terms`: `column.replace("_", "-").lower()`. -/
def cleanSegment (s : String) : String :=
  String.mk (s.data.map (fun c => if c = '_' then '-' else c.toLower))

/-- The deterministic entry-link id `f"link-{clean_table}-{clean_column}"`. -/
def entryLinkId (table column : String) : String :=
  "link-" ++ cleanSegment table ++ "-" ++ cleanSegment column

/-- Modelled from the spec: the identifier derivation as the specification
words it — "derived from target table + target column, lower-cased,
non-alphanumeric replaced with hyphens" — for comparison with the
`entryLinkId` the code actually computes. -/
def claimedCleanSegment (s : String) : String :=
  String.mk (s.data.map (fun c =>
    let l := c.toLower
    if isLowAlnum l then l else '-'))

def claimedLinkId (table column : String) : String :=
  "link-" ++ claimedCleanSegment table ++ "-" ++ claimedCleanSegment column

inductive ApplyOutcome where
  | created
  | alreadyExists
  | unresolved
deriving DecidableEq, Repr

/-- Model of `CatalogServiceClient.create_entry_link` against the abstract store. -/
def createEntryLink (state : List String) (id : String) :
    ApplyOutcome × List String :=
  if state.contains id then (.alreadyExists, state) else (.created, id :: state)

structure TermUpdate where
  column : String
  term_id : String
deriving DecidableEq, Repr

/-- Model of `GlossaryPlugin.apply_terms`: per-update outcomes plus the resulting
store.  `resolve` models `_resolve_term_entry_name`; an unresolved term is
logged and skipped, an already-existing link is logged and treated as
success, and the loop always continues. -/
def applyTerms (resolve : String → Option String) (table : String) :
    List TermUpdate → List String → List (String × ApplyOutcome) × List String
  | [], state => ([], state)
  | u :: rest, state =>
    match resolve u.term_id with
    | none =>
      let r := applyTerms resolve table rest state
      ((u.column, .unresolved) :: r.1, r.2)
    | some _ =>
      let c := createEntryLink state (entryLinkId table u.column)
      let r := applyTerms resolve table rest c.2
      ((u.column, c.1) :: r.1, r.2)

end GovMeta

namespace GovMeta

/-! # Supporting lemmas -/

lemma round2_le (x : ℚ) : round2 x ≤ x + 1/200 := by
  unfold round2
  dsimp only
  have h1 : ((⌊100 * x⌋ : ℚ)) ≤ 100 * x := Int.floor_le _
  have h2 : 100 * x < (⌊100 * x⌋ : ℚ) + 1 := Int.lt_floor_add_one _
  split_ifs with hr hs he <;> nlinarith

lemma le_round2 (x : ℚ) : x - 1/200 ≤ round2 x := by
  unfold round2
  dsimp only
  have h1 : ((⌊100 * x⌋ : ℚ)) ≤ 100 * x := Int.floor_le _
  have h2 : 100 * x < (⌊100 * x⌋ : ℚ) + 1 := Int.lt_floor_add_one _
  split_ifs with hr hs he <;> nlinarith

lemma round2_nonneg {x : ℚ} (h : 0 ≤ x) : 0 ≤ round2 x := by
  unfold round2
  dsimp only
  have h0 : (0 : ℤ) ≤ ⌊100 * x⌋ := Int.floor_nonneg.2 (by linarith)
  have h0q : (0 : ℚ) ≤ (⌊100 * x⌋ : ℚ) := by exact_mod_cast h0
  split_ifs with hr hs he <;> positivity

lemma round2_le_one {x : ℚ} (h : x ≤ 1) : round2 x ≤ 1 := by
  unfold round2
  dsimp only
  have h1 : ((⌊100 * x⌋ : ℚ)) ≤ 100 * x := Int.floor_le _
  have h2 : 100 * x < (⌊100 * x⌋ : ℚ) + 1 := Int.lt_floor_add_one _
  split_ifs with hr hs he
  · linarith
  · -- here 1/2 < 100*x - ⌊100*x⌋, so ⌊100*x⌋ ≤ 99 and (⌊⌋+1)/100 ≤ 1
    have hq : ((⌊100 * x⌋ : ℚ)) ≤ 199/2 := by linarith
    have hz : ⌊100 * x⌋ ≤ 99 := by
      by_contra hc
      push_neg at hc
      have : ((100 : ℤ) : ℚ) ≤ (⌊100 * x⌋ : ℚ) := by exact_mod_cast hc
      push_cast at this
      linarith
    have : ((⌊100 * x⌋ : ℚ)) ≤ 99 := by exact_mod_cast hz
    linarith
  · linarith
  · have hq : ((⌊100 * x⌋ : ℚ)) ≤ 199/2 := by linarith
    have hz : ⌊100 * x⌋ ≤ 99 := by
      by_contra hc
      push_neg at hc
      have : ((100 : ℤ) : ℚ) ≤ (⌊100 * x⌋ : ℚ) := by exact_mod_cast hc
      push_cast at this
      linarith
    have : ((⌊100 * x⌋ : ℚ)) ≤ 99 := by exact_mod_cast hz
    linarith

lemma round2_zero : round2 0 = 0 := by
  unfold round2
  dsimp only
  norm_num


lemma interCard_le_union_len (a b : List String) :
    interCard a b ≤ (unionList a b).length := by
  unfold interCard unionList
  calc (a.filter (fun x => b.contains x)).length
      ≤ a.length := List.length_filter_le _ _
    _ ≤ a.length + (b.filter (fun x => !(a.contains x))).length :=
        Nat.le_add_right _ _
    _ = (a ++ b.filter (fun x => !(a.contains x))).length :=
        (List.length_append _ _).symm

lemma union_len_pos {s1 : List String} (s2 : List String) (h : s1 ≠ []) :
    0 < (unionList s1 s2).length := by
  unfold unionList
  cases s1 with
  | nil => exact absurd rfl h
  | cons x xs => simp

lemma jaccard_le_one (s1 s2 : List String) (h : s1.isEmpty = false) :
    (interCard s1 s2 : ℚ) / ((unionList s1 s2).length : ℚ) ≤ 1 := by
  have h1 : s1 ≠ [] := by
    cases s1 with
    | nil => simp at h
    | cons x xs => simp
  have hpos : 0 < (unionList s1 s2).length := union_len_pos s2 h1
  rw [div_le_one (by exact_mod_cast hpos)]
  exact_mod_cast interCard_le_union_len s1 s2

lemma lexical_nonneg (a b c : String) : 0 ≤ calculateLexicalSimilarity a b c := by
  unfold calculateLexicalSimilarity
  dsimp only
  split_ifs with ht he hf
  · exact le_refl 0
  · positivity
  · exact le_refl 0
  · positivity

lemma lexical_le_one (a b c : String) : calculateLexicalSimilarity a b c ≤ 1 := by
  unfold calculateLexicalSimilarity
  dsimp only
  split_ifs with ht he hf
  · norm_num
  · rw [Bool.or_eq_true] at he
    push_neg at he
    exact jaccard_le_one _ _ (Bool.not_eq_true _ |>.mp he.1)
  · norm_num
  · rw [Bool.or_eq_true] at hf
    push_neg at hf
    exact jaccard_le_one _ _ (Bool.not_eq_true _ |>.mp hf.1)

end GovMeta

namespace GovMeta

lemma checkSemanticMismatch_cases (t s : String) :
    checkSemanticMismatch t s = 1/5 ∨ checkSemanticMismatch t s = 1/2 ∨
    checkSemanticMismatch t s = 1 := by
  unfold checkSemanticMismatch
  dsimp only
  split_ifs <;> norm_num

lemma checkSemanticMismatch_pos (t s : String) :
    1/5 ≤ checkSemanticMismatch t s ∧ checkSemanticMismatch t s ≤ 1 := by
  rcases checkSemanticMismatch_cases t s with h | h | h <;> rw [h] <;> norm_num

lemma baseScore_cases (col f : String) (n : ℕ) :
    baseScore col f n = 1 ∨ baseScore col f n = 19/20 ∨ baseScore col f n = 9/10 ∨
    baseScore col f n = 4/5 ∨ baseScore col f n = 7/10 ∨ baseScore col f n = 1/2 := by
  unfold baseScore
  split_ifs <;> norm_num

lemma baseScore_bounds (col f : String) (n : ℕ) :
    1/2 ≤ baseScore col f n ∧ baseScore col f n ≤ 1 := by
  rcases baseScore_cases col f n with h | h | h | h | h | h <;> rw [h] <;> norm_num

lemma baseScore_eq_one_imp {col f : String} {n : ℕ}
    (h : baseScore col f n = 1) : f = col := by
  unfold baseScore at h
  split_ifs at h with h1 h2 h3 h4 h5
  · exact h1
  all_goals norm_num at h

lemma baseScore_ne_one_le {col f : String} {n : ℕ} (h : f ≠ col) :
    baseScore col f n ≤ 19/20 := by
  rcases baseScore_cases col f n with h1 | h1 | h1 | h1 | h1 | h1
  · exact absurd (baseScore_eq_one_imp h1) h
  all_goals rw [h1]
  all_goals norm_num

lemma mem_candsOf {c : Cand} {col : String} {links : List Link}
    (h : c ∈ candsOf col links) :
    ∃ l ∈ links, linkValid l = true ∧ ∃ f ∈ l.source_fields,
      c = ⟨l.source_fqn, f,
           baseScore col f l.source_fields.length * checkSemanticMismatch col f,
           checkSemanticMismatch col f⟩ := by
  unfold candsOf at h
  rcases List.mem_flatMap.1 h with ⟨l, hl, hc⟩
  rcases List.mem_filter.1 hl with ⟨hmem, hv⟩
  rcases List.mem_map.1 hc with ⟨f, hf, heq⟩
  exact ⟨l, hmem, hv, f, hf, heq.symm⟩

lemma candScore_bounds {c : Cand} {col : String} {links : List Link}
    (h : c ∈ candsOf col links) :
    1/10 ≤ c.score ∧ c.score ≤ 1 ∧ (199/200 ≤ c.score → c.field = col) := by
  rcases mem_candsOf h with ⟨l, _, _, f, _, rfl⟩
  dsimp only
  obtain ⟨hb1, hb2⟩ := baseScore_bounds col f l.source_fields.length
  obtain ⟨hp1, hp2⟩ := checkSemanticMismatch_pos col f
  refine ⟨by nlinarith, by nlinarith, ?_⟩
  intro hge
  rcases checkSemanticMismatch_cases col f with hp | hp | hp
  · rw [hp] at hge; nlinarith
  · rw [hp] at hge; nlinarith
  · rw [hp, mul_one] at hge
    by_contra hne
    have := baseScore_ne_one_le (n := l.source_fields.length) hne
    linarith

lemma pickAux_cases (l : List Cand) :
    ∀ (b : Option Cand) (m : ℚ),
    (pickAux l b m = b ∧ ∀ c ∈ l, c.score ≤ m) ∨
    (∃ i, ∃ hi : i < l.length,
      pickAux l b m = some (l.get ⟨i, hi⟩) ∧ m < (l.get ⟨i, hi⟩).score ∧
      (∀ j (hj : j < l.length), (l.get ⟨j, hj⟩).score ≤ (l.get ⟨i, hi⟩).score) ∧
      (∀ j (hj : j < l.length), j < i →
        (l.get ⟨j, hj⟩).score < (l.get ⟨i, hi⟩).score)) := by
  induction l with
  | nil =>
    intro b m
    left
    exact ⟨rfl, by intro c hc; cases hc⟩
  | cons x xs ih =>
    intro b m
    show (pickAux (x :: xs) b m = b ∧ _) ∨ _
    rw [pickAux]
    split_ifs with hx
    · -- the head strictly improves: the recursion restarts from x
      rcases ih (some x) x.score with ⟨heq, hall⟩ | ⟨i, hi, heq, hlt, hle, hstrict⟩
      · right
        refine ⟨0, by simp, by simpa using heq, by simpa using hx, ?_, ?_⟩
        · intro j hj
          cases j with
          | zero => exact le_refl _
          | succ jj =>
            have hj2 : jj < xs.length := by
              simp only [List.length_cons] at hj
              omega
            exact hall (xs.get ⟨jj, hj2⟩) (List.get_mem xs jj hj2)
        · intro j hj hj0
          omega
      · right
        have hi2 : i + 1 < (x :: xs).length := by
          simp only [List.length_cons]
          omega
        refine ⟨i + 1, hi2, by simpa using heq, lt_trans hx hlt, ?_, ?_⟩
        · intro j hj
          cases j with
          | zero => exact le_of_lt hlt
          | succ jj =>
            have hj2 : jj < xs.length := by
              simp only [List.length_cons] at hj
              omega
            exact hle jj hj2
        · intro j hj hji
          cases j with
          | zero => exact hlt
          | succ jj =>
            have hj2 : jj < xs.length := by
              simp only [List.length_cons] at hj
              omega
            exact hstrict jj hj2 (by omega)
    · -- the head does not improve on the running maximum
      push_neg at hx
      rcases ih b m with ⟨heq, hall⟩ | ⟨i, hi, heq, hlt, hle, hstrict⟩
      · left
        refine ⟨heq, ?_⟩
        intro c hc
        rcases List.mem_cons.1 hc with rfl | hc
        · exact hx
        · exact hall c hc
      · right
        have hi2 : i + 1 < (x :: xs).length := by
          simp only [List.length_cons]
          omega
        refine ⟨i + 1, hi2, by simpa using heq, hlt, ?_, ?_⟩
        · intro j hj
          cases j with
          | zero => exact le_trans hx (le_of_lt hlt)
          | succ jj =>
            have hj2 : jj < xs.length := by
              simp only [List.length_cons] at hj
              omega
            exact hle jj hj2
        · intro j hj hji
          cases j with
          | zero => exact lt_of_le_of_lt hx hlt
          | succ jj =>
            have hj2 : jj < xs.length := by
              simp only [List.length_cons] at hj
              omega
            exact hstrict jj hj2 (by omega)

lemma pickAux_mem {l : List Cand} {c : Cand}
    (h : pickAux l none (-1) = some c) : c ∈ l := by
  rcases pickAux_cases l none (-1) with ⟨heq, _⟩ | ⟨i, hi, heq, _, _, _⟩
  · rw [heq] at h; cases h
  · rw [heq] at h
    cases h
    exact List.get_mem l i hi

end GovMeta

namespace GovMeta

lemma mem_insertDesc {a x : Suggestion} {l : List Suggestion} :
    a ∈ insertDesc x l ↔ a = x ∨ a ∈ l := by
  induction l with
  | nil => simp [insertDesc]
  | cons y ys ih =>
    rw [insertDesc]
    split_ifs with h
    · simp
    · simp only [List.mem_cons, ih]
      tauto

lemma insertDesc_sorted {x : Suggestion} {l : List Suggestion}
    (h : List.Pairwise (fun a b => b.confidence ≤ a.confidence) l) :
    List.Pairwise (fun a b => b.confidence ≤ a.confidence) (insertDesc x l) := by
  induction l with
  | nil => simp [insertDesc]
  | cons y ys ih =>
    rw [List.pairwise_cons] at h
    rw [insertDesc]
    split_ifs with hlt
    · rw [List.pairwise_cons]
      refine ⟨?_, List.pairwise_cons.2 h⟩
      intro b hb
      rcases List.mem_cons.1 hb with rfl | hb
      · exact le_of_lt hlt
      · exact le_trans (h.1 b hb) (le_of_lt hlt)
    · rw [List.pairwise_cons]
      refine ⟨?_, ih h.2⟩
      intro b hb
      rcases mem_insertDesc.1 hb with rfl | hb
      · exact not_lt.1 hlt
      · exact h.1 b hb

lemma sortDesc_aux_mem (l : List Suggestion) :
    ∀ (acc : List Suggestion) (a : Suggestion),
    a ∈ l.foldl (fun acc x => insertDesc x acc) acc ↔ a ∈ acc ∨ a ∈ l := by
  induction l with
  | nil => simp
  | cons x xs ih =>
    intro acc a
    simp only [List.foldl_cons]
    rw [ih (insertDesc x acc) a, mem_insertDesc]
    simp only [List.mem_cons]
    tauto

lemma mem_sortDesc {a : Suggestion} {l : List Suggestion} :
    a ∈ sortDesc l ↔ a ∈ l := by
  unfold sortDesc
  rw [sortDesc_aux_mem]
  simp

lemma sortDesc_aux_sorted (l : List Suggestion) :
    ∀ (acc : List Suggestion),
    List.Pairwise (fun a b => b.confidence ≤ a.confidence) acc →
    List.Pairwise (fun a b => b.confidence ≤ a.confidence)
      (l.foldl (fun acc x => insertDesc x acc) acc) := by
  induction l with
  | nil => intro acc h; simpa using h
  | cons x xs ih =>
    intro acc h
    simp only [List.foldl_cons]
    exact ih _ (insertDesc_sorted h)

lemma sortDesc_sorted (l : List Suggestion) :
    List.Pairwise (fun a b => b.confidence ≤ a.confidence) (sortDesc l) :=
  sortDesc_aux_sorted l [] (List.Pairwise.nil)

lemma applyTerms_state_mono {resolve : String → Option String} {table : String}
    (updates : List TermUpdate) :
    ∀ (state : List String) (id : String), id ∈ state →
    id ∈ (applyTerms resolve table updates state).2 := by
  induction updates with
  | nil => intro state id h; exact h
  | cons u rest ih =>
    intro state id h
    rw [applyTerms]
    cases hres : resolve u.term_id with
    | none => exact ih state id h
    | some e =>
      dsimp only
      apply ih
      unfold createEntryLink
      split_ifs with hc
      · exact h
      · exact List.mem_cons_of_mem _ h

lemma applyTerms_link_present {resolve : String → Option String} {table : String}
    (updates : List TermUpdate) :
    ∀ (state : List String) (u : TermUpdate), u ∈ updates →
    resolve u.term_id ≠ none →
    entryLinkId table u.column ∈ (applyTerms resolve table updates state).2 := by
  induction updates with
  | nil => intro state u h; cases h
  | cons v rest ih =>
    intro state u hu hres
    rw [applyTerms]
    rcases List.mem_cons.1 hu with rfl | hu
    · cases hresv : resolve u.term_id with
      | none => exact absurd hresv hres
      | some e =>
        dsimp only
        apply applyTerms_state_mono
        unfold createEntryLink
        split_ifs with hc
        · exact List.mem_of_elem_eq_true hc
        · exact List.mem_cons_self _ _
    · cases hresv : resolve v.term_id with
      | none => exact ih state u hu hres
      | some e => exact ih _ u hu hres

lemma applyTerms_all_present {resolve : String → Option String} {table : String}
    (updates : List TermUpdate) :
    ∀ (state : List String),
    (∀ u ∈ updates, resolve u.term_id ≠ none ∧
        entryLinkId table u.column ∈ state) →
    (applyTerms resolve table updates state).1
        = updates.map (fun u => (u.column, ApplyOutcome.alreadyExists)) ∧
    (applyTerms resolve table updates state).2 = state := by
  induction updates with
  | nil => intro state _; exact ⟨rfl, rfl⟩
  | cons u rest ih =>
    intro state h
    obtain ⟨hres, hmem⟩ := h u (List.mem_cons_self u rest)
    rw [applyTerms]
    cases hresv : resolve u.term_id with
    | none => exact absurd hresv hres
    | some e =>
      dsimp only
      have hcontains : state.contains (entryLinkId table u.column) = true :=
        List.elem_eq_true_of_mem hmem
      rw [show createEntryLink state (entryLinkId table u.column)
            = (ApplyOutcome.alreadyExists, state) by
          unfold createEntryLink
          rw [if_pos hcontains]]
      obtain ⟨h1, h2⟩ := ih state (fun v hv => h v (List.mem_cons_of_mem u hv))
      exact ⟨by rw [List.map_cons]; exact congrArg _ h1, h2⟩

lemma applyTerms_nodup {resolve : String → Option String} {table : String}
    (updates : List TermUpdate) :
    ∀ (state : List String), state.Nodup →
    (applyTerms resolve table updates state).2.Nodup := by
  induction updates with
  | nil => intro state h; exact h
  | cons u rest ih =>
    intro state h
    rw [applyTerms]
    cases hres : resolve u.term_id with
    | none => exact ih state h
    | some e =>
      dsimp only
      apply ih
      unfold createEntryLink
      split_ifs with hc
      · exact h
      · refine List.Nodup.cons ?_ h
        intro hmem
        exact absurd (List.elem_eq_true_of_mem hmem) (by simpa using hc)

end GovMeta

namespace GovMeta

/-! # Claim theorems -/

/- The Batteries rational-number operations are irreducible by default,
which blocks elaboration-time evaluation of concrete scores; restore
semireducibility locally so that closed goals reduce. -/
attribute [local semireducible] Rat.mul Rat.add Rat.sub Rat.inv Rat.ofScientific

/-- C1: the propagation decision engine classifies every confidence value
into exactly one bucket — AUTO_APPLY iff the confidence exceeds 0.90,
REVIEW iff it lies in [0.70, 0.90], and SKIP iff it is below 0.70 — with no
gaps and no overlaps. -/
theorem C1_decision_trichotomy (x : ℚ) :
    (decision x = Decision.AUTO_APPLY ↔ 9/10 < x) ∧
    (decision x = Decision.REVIEW ↔ 7/10 ≤ x ∧ x ≤ 9/10) ∧
    (decision x = Decision.SKIP ↔ x < 7/10) := by
  unfold decision
  split_ifs with h1 h2
  · refine ⟨⟨fun _ => h1, fun _ => rfl⟩, ⟨fun h => ?_, fun hx => ?_⟩,
      ⟨fun h => ?_, fun hx => ?_⟩⟩
    · cases h
    · exact absurd h1 (not_lt.2 hx.2)
    · cases h
    · exact absurd hx (not_lt.2 (by linarith))
  · refine ⟨⟨fun h => ?_, fun hx => ?_⟩, ⟨fun _ => ⟨h2, not_lt.1 h1⟩, fun _ => rfl⟩,
      ⟨fun h => ?_, fun hx => ?_⟩⟩
    · cases h
    · exact absurd hx h1
    · cases h
    · exact absurd h2 (not_le.2 hx)
  · refine ⟨⟨fun h => ?_, fun hx => ?_⟩, ⟨fun h => ?_, fun hx => ?_⟩,
      ⟨fun _ => not_le.1 h2, fun _ => rfl⟩⟩
    · cases h
    · exact absurd hx h1
    · cases h
    · exact absurd hx.1 h2

/-- C10: the semantic-mismatch penalty only ever takes the values 0.2, 0.5
and 1.0, and it is applied even to an identical-name match: the column
`order_date_id` offered its identically named upstream field is scored
1.0 × 0.2 = 0.2, not 1.0. -/
theorem C10_penalty_values :
    (∀ t s, checkSemanticMismatch t s = 1/5 ∨ checkSemanticMismatch t s = 1/2 ∨
        checkSemanticMismatch t s = 1) ∧
    checkSemanticMismatch "order_date_id" "order_date_id" = 1/5 ∧
    getColumnLineageFor "order_date_id"
        [⟨"bigquery:p.d.src", ["order_date_id"]⟩] 0
      = some ⟨"bigquery:p.d.src", "p.d.src", "order_date_id", 1/5, true, 0⟩ :=
  ⟨checkSemanticMismatch_cases, by decide, by decide⟩

/-- C5: extracting the transformation logic for column `amount` from
`SELECT a.amount_discounted AS amount_discounted, a.amount AS amount FROM t`
returns exactly `a.amount`; the word-bounded match never fires inside the
`amount_discounted` binding. -/
theorem C5_word_bounded_extraction :
    extractColumnLogic
      "SELECT a.amount_discounted AS amount_discounted, a.amount AS amount FROM t"
      "amount" = some "a.amount" := by
  decide

/-- C4: on the three-table chain A→B→C where only A's column carries a
description, `_find_description_recursive` as written raises
`KeyError: 0` (it indexes the per-column best-match dictionary with the
integer 0), while the behaviour its own unit test specifies — and which the
claim describes — returns the hop-depth-1 record carrying A's
description. -/
theorem C4_recursive_resolution_divergence :
    findDescriptionRecursive chainWorld
        "bigquery:test-project.ds.table_c" "order_id" 0 5 []
      = Except.error "KeyError: 0" ∧
    findDescriptionRecursiveFixed chainWorld
        "bigquery:test-project.ds.table_c" "order_id" 0 5 []
      = some ⟨"table_a", "ordered_id", "The unique identifier for an order",
              19/20, 1, []⟩ :=
  ⟨rfl, rfl⟩

/-- C2 counterexample, in two parts.  Blended term-match scores are not
confined to [0, 1]: for the column `customer_id` described as
"unique customer identifier" matched against the glossary term
`Customer Id` with the same description, the engine returns a confidence of
1.10, and the ranked-suggestion list publishes that confidence.  And 1.0 is
not reserved for identical-name passthrough: resolving target column
`order_id` yields the renamed upstream source `ordered_id` with lineage
confidence 0.70, yet the propagation candidate `propagate_pull` builds for
it carries the hard-coded confidence 1.0 (type DIRECT_PASSTHROUGH) under
the intended list reading, the code as written raising `KeyError: 0` on
that same input before the decision gate is reached. -/
theorem C2_blended_score_exceeds_one :
    (calculateTotalScore (fun _ _ => 0) (fun _ => [])
        ⟨"customer_id", "unique customer identifier"⟩
        ⟨"glossary/terms/customer_id", "Customer Id",
         "unique customer identifier"⟩ []).total = 11/10 ∧
    (1 : ℚ) < (calculateTotalScore (fun _ _ => 0) (fun _ => [])
        ⟨"customer_id", "unique customer identifier"⟩
        ⟨"glossary/terms/customer_id", "Customer Id",
         "unique customer identifier"⟩ []).total ∧
    (getRankedSuggestions (fun _ _ => 0) (fun _ => [])
        ⟨"customer_id", "unique customer identifier"⟩
        [⟨"glossary/terms/customer_id", "Customer Id",
          "unique customer identifier"⟩] []).map (fun s => s.confidence)
      = [11/10] ∧
    getColumnLineageFor "order_id"
        [⟨"bigquery:test-project.ds.table_a", ["ordered_id"]⟩] 0
      = some ⟨"bigquery:test-project.ds.table_a", "test-project.ds.table_a",
              "ordered_id", 7/10, false, 0⟩ ∧
    pullLineageCandidatesFixed
        (fun e => if e = "test-project.ds.table_a" then
            some [("ordered_id", "The unique identifier for an order")]
          else none)
        (getColumnLineageFor "order_id"
          [⟨"bigquery:test-project.ds.table_a", ["ordered_id"]⟩] 0)
      = [⟨"table_a", "ordered_id", 1, "DIRECT_PASSTHROUGH",
          "The unique identifier for an order"⟩] ∧
    pullLineageCandidates
        (getColumnLineageFor "order_id"
          [⟨"bigquery:test-project.ds.table_a", ["ordered_id"]⟩] 0)
      = Except.error "KeyError: 0" ∧
    "ordered_id" ≠ "order_id" := by
  refine ⟨by decide, by decide, by decide, by decide, by decide, by rfl,
    by decide⟩

/-- C8 counterexample: an out-of-range blended score does not raise — it is
silently clamped.  Matching `order_date` against the term
`Customer Identifier` yields a raw blended score of −0.65, and the engine
returns 0 (the `max(0, score)` clamp) instead of aborting. -/
theorem C8_silent_clamp_counterexample :
    rawScore (fun _ _ => 0) (fun _ => []) ⟨"order_date", ""⟩
        ⟨"g/customer_identifier", "Customer Identifier",
         "Internal ID for customer"⟩ [] = -(13/20) ∧
    rawScore (fun _ _ => 0) (fun _ => []) ⟨"order_date", ""⟩
        ⟨"g/customer_identifier", "Customer Identifier",
         "Internal ID for customer"⟩ [] < 0 ∧
    (calculateTotalScore (fun _ _ => 0) (fun _ => []) ⟨"order_date", ""⟩
        ⟨"g/customer_identifier", "Customer Identifier",
         "Internal ID for customer"⟩ []).total = 0 := by
  refine ⟨by decide, by decide, by decide⟩

end GovMeta

namespace GovMeta

attribute [local semireducible] Rat.mul Rat.add Rat.sub Rat.inv Rat.ofScientific

/-- C2 (amended): upstream lineage-match confidences always lie in [0,1]
and reach exactly 1.0 only when the offered source field name is identical
to the target column; the blended term-match score is only bounded below
(by the clamp at 0) and can exceed 1; and every propagation candidate the
pull path derives from lineage carries the constant confidence 1.0 with
type DIRECT_PASSTHROUGH whatever the source column is named — while the
code as written raises `KeyError: 0` before building such a candidate. -/
theorem C2_amended_confidence_ranges :
    (∀ (col : String) (links : List Link) (depth : ℕ) (m : BestMatch),
      getColumnLineageFor col links depth = some m →
      0 ≤ m.confidence ∧ m.confidence ≤ 1 ∧
      (m.confidence = 1 → m.source_column = col)) ∧
    (∀ (cosine : List ℚ → List ℚ → ℚ) (termEmbs : String → List ℚ)
      (col : Column) (term : Term) (colEmb : List ℚ),
      0 ≤ (calculateTotalScore cosine termEmbs col term colEmb).total) ∧
    (∀ (schema : String → Option (List (String × String)))
      (r : Option BestMatch),
      ∀ c ∈ pullLineageCandidatesFixed schema r,
        c.confidence = 1 ∧ c.ctype = "DIRECT_PASSTHROUGH") ∧
    (∀ bm : BestMatch,
      pullLineageCandidates (some bm) = Except.error "KeyError: 0") := by
  refine ⟨?_, ?_, ?_, fun bm => rfl⟩
  · intro col links depth m hm
    unfold getColumnLineageFor at hm
    cases hp : pickAux (candsOf col links) none (-1) with
    | none => rw [hp] at hm; cases hm
    | some c =>
      rw [hp] at hm
      have hmem : c ∈ candsOf col links := pickAux_mem hp
      obtain ⟨hs1, hs2, hs3⟩ := candScore_bounds hmem
      have hmc : m = toBestMatch depth c := by
        simpa using hm.symm
      subst hmc
      have hconf : (toBestMatch depth c).confidence = round2 c.score := rfl
      have hcol : (toBestMatch depth c).source_column = c.field := rfl
      refine ⟨?_, ?_, ?_⟩
      · rw [hconf]
        have := le_round2 c.score
        linarith
      · rw [hconf]
        exact round2_le_one hs2
      · intro h1
        rw [hconf] at h1
        rw [hcol]
        apply hs3
        have := round2_le c.score
        rw [h1] at this
        linarith
  · intro cosine termEmbs col term colEmb
    have : (calculateTotalScore cosine termEmbs col term colEmb).total
        = round2 (max 0 (rawScore cosine termEmbs col term colEmb)) := rfl
    rw [this]
    exact round2_nonneg (le_max_left _ _)
  · intro schema r c hc
    cases r with
    | none => cases hc
    | some ls =>
      unfold pullLineageCandidatesFixed at hc
      dsimp only at hc
      split at hc
      · split at hc
        · cases hc
        · split at hc
          · cases hc
          · split at hc
            · cases hc
            · rcases List.mem_singleton.1 hc with rfl
              exact ⟨rfl, rfl⟩
      · cases hc

/-- Witness for `C2_amended_confidence_ranges`: a direct passthrough link
for `customer_id` resolves with confidence exactly 1, inside [0, 1]. -/
theorem C2_amended_confidence_ranges_witness :
    0 ≤ (BestMatch.mk "bigquery:p.d.s" "p.d.s" "customer_id" 1 false 0).confidence ∧
    (BestMatch.mk "bigquery:p.d.s" "p.d.s" "customer_id" 1 false 0).confidence ≤ 1 ∧
    ((BestMatch.mk "bigquery:p.d.s" "p.d.s" "customer_id" 1 false 0).confidence = 1 →
      (BestMatch.mk "bigquery:p.d.s" "p.d.s" "customer_id" 1 false 0).source_column
        = "customer_id") :=
  C2_amended_confidence_ranges.1 "customer_id"
    [⟨"bigquery:p.d.s", ["customer_id"]⟩] 0 _ (by decide)

/-- C8 (amended): the engine never aborts on an out-of-range blended score;
instead the returned total is always clamped to be non-negative, and any
negative raw blend is silently reported as 0. -/
theorem C8_amended_silent_clamp (cosine : List ℚ → List ℚ → ℚ)
    (termEmbs : String → List ℚ) (col : Column) (term : Term)
    (colEmb : List ℚ) :
    0 ≤ (calculateTotalScore cosine termEmbs col term colEmb).total ∧
    (rawScore cosine termEmbs col term colEmb < 0 →
      (calculateTotalScore cosine termEmbs col term colEmb).total = 0) := by
  have htot : (calculateTotalScore cosine termEmbs col term colEmb).total
      = round2 (max 0 (rawScore cosine termEmbs col term colEmb)) := rfl
  constructor
  · rw [htot]
    exact round2_nonneg (le_max_left _ _)
  · intro h
    rw [htot, max_eq_left (le_of_lt h), round2_zero]

/-- Witness for `C8_amended_silent_clamp`: the −0.65 raw blend of
`order_date` against `Customer Identifier` is returned as the clamped 0. -/
theorem C8_amended_silent_clamp_witness :
    (calculateTotalScore (fun _ _ => 0) (fun _ => []) ⟨"order_date", ""⟩
        ⟨"g/customer_identifier", "Customer Identifier",
         "Internal ID for customer"⟩ []).total = 0 :=
  (C8_amended_silent_clamp (fun _ _ => 0) (fun _ => []) ⟨"order_date", ""⟩
      ⟨"g/customer_identifier", "Customer Identifier",
       "Internal ID for customer"⟩ []).2 (by decide)

/-- C9 counterexample: the deterministic entry-link id replaces only
underscores by hyphens — a non-alphanumeric character such as the dot in
`sales.2024` is kept, so the id differs from the claimed
"non-alphanumeric replaced by hyphens" derivation. -/
theorem C9_link_id_counterexample :
    entryLinkId "sales.2024" "order_id" = "link-sales.2024-order-id" ∧
    claimedLinkId "sales.2024" "order_id" = "link-sales-2024-order-id" ∧
    entryLinkId "sales.2024" "order_id" ≠ claimedLinkId "sales.2024" "order_id" := by
  refine ⟨by decide, by decide, by decide⟩

/-- C9 (amended): every applied link uses the deterministic id
`link-<table>-<column>` (lower-cased, underscores replaced by hyphens);
when every term resolves, a second `apply_terms` run over the same records
yields an already-exists outcome for every record, treated as a skip rather
than a failure, leaves the store unchanged, and the store never holds
duplicate links. -/
theorem C9_amended_idempotent (resolve : String → Option String)
    (table : String) (updates : List TermUpdate) (state : List String)
    (h : ∀ u ∈ updates, resolve u.term_id ≠ none) :
    (applyTerms resolve table updates
        (applyTerms resolve table updates state).2).1
      = updates.map (fun u => (u.column, ApplyOutcome.alreadyExists)) ∧
    (applyTerms resolve table updates
        (applyTerms resolve table updates state).2).2
      = (applyTerms resolve table updates state).2 ∧
    (state.Nodup → (applyTerms resolve table updates state).2.Nodup) := by
  have hpresent : ∀ u ∈ updates, resolve u.term_id ≠ none ∧
      entryLinkId table u.column ∈ (applyTerms resolve table updates state).2 :=
    fun u hu => ⟨h u hu, applyTerms_link_present updates state u hu (h u hu)⟩
  obtain ⟨h1, h2⟩ := applyTerms_all_present updates _ hpresent
  exact ⟨h1, h2, fun hn => applyTerms_nodup updates state hn⟩

/-- Witness for `C9_amended_idempotent`: one update applied twice from an
empty store reports already-exists on the second run and adds nothing. -/
theorem C9_amended_idempotent_witness :
    (applyTerms (fun _ => some "entry") "t" [⟨"order_id", "g"⟩]
        (applyTerms (fun _ => some "entry") "t" [⟨"order_id", "g"⟩] []).2).1
      = [TermUpdate.mk "order_id" "g"].map
          (fun u => (u.column, ApplyOutcome.alreadyExists)) ∧
    (applyTerms (fun _ => some "entry") "t" [⟨"order_id", "g"⟩]
        (applyTerms (fun _ => some "entry") "t" [⟨"order_id", "g"⟩] []).2).2
      = (applyTerms (fun _ => some "entry") "t" [⟨"order_id", "g"⟩] []).2 ∧
    (([] : List String).Nodup →
      (applyTerms (fun _ => some "entry") "t" [⟨"order_id", "g"⟩] []).2.Nodup) :=
  C9_amended_idempotent (fun _ => some "entry") "t" [⟨"order_id", "g"⟩] []
    (by decide)

end GovMeta

namespace GovMeta

attribute [local semireducible] Rat.mul Rat.add Rat.sub Rat.inv Rat.ofScientific

/-- C3: upstream base scores follow the specificity ladder exactly (exact
name 1.0; case-insensitive 0.95; separator-stripped 0.9; substring either
way 0.8; otherwise 0.7 for a single-field link, else 0.5); every examined
candidate's score is that base multiplied by the semantic-mismatch penalty;
and the resolver keeps exactly the single highest-scoring candidate, the
first one encountered on ties. -/
theorem C3_upstream_scoring :
    (∀ (col f : String) (n : ℕ),
      (f = col → baseScore col f n = 1) ∧
      (f ≠ col → lowerStr f = lowerStr col → baseScore col f n = 19/20) ∧
      (f ≠ col → lowerStr f ≠ lowerStr col → stripUnders f = stripUnders col →
        baseScore col f n = 9/10) ∧
      (f ≠ col → lowerStr f ≠ lowerStr col → stripUnders f ≠ stripUnders col →
        (strContains f col || strContains col f) = true →
        baseScore col f n = 4/5) ∧
      (f ≠ col → lowerStr f ≠ lowerStr col → stripUnders f ≠ stripUnders col →
        (strContains f col || strContains col f) = false → n = 1 →
        baseScore col f n = 7/10) ∧
      (f ≠ col → lowerStr f ≠ lowerStr col → stripUnders f ≠ stripUnders col →
        (strContains f col || strContains col f) = false → n ≠ 1 →
        baseScore col f n = 1/2)) ∧
    (∀ (col : String) (links : List Link),
      ∀ c ∈ candsOf col links, ∃ l ∈ links, linkValid l = true ∧
        ∃ f ∈ l.source_fields, c.field = f ∧
          c.score = baseScore col f l.source_fields.length *
            checkSemanticMismatch col f) ∧
    (∀ (col : String) (links : List Link) (depth : ℕ),
      (getColumnLineageFor col links depth = none ↔ candsOf col links = []) ∧
      (∀ m, getColumnLineageFor col links depth = some m →
        ∃ i, ∃ hi : i < (candsOf col links).length,
          m = toBestMatch depth ((candsOf col links).get ⟨i, hi⟩) ∧
          (∀ j (hj : j < (candsOf col links).length),
            ((candsOf col links).get ⟨j, hj⟩).score ≤
              ((candsOf col links).get ⟨i, hi⟩).score) ∧
          (∀ j (hj : j < (candsOf col links).length), j < i →
            ((candsOf col links).get ⟨j, hj⟩).score <
              ((candsOf col links).get ⟨i, hi⟩).score))) := by
  refine ⟨?_, ?_, ?_⟩
  · intro col f n
    unfold baseScore
    split_ifs with h1 h2 h3 h4 h5 <;>
      refine ⟨?_, ?_, ?_, ?_, ?_, ?_⟩ <;> intros <;> simp_all
  · intro col links c hc
    rcases mem_candsOf hc with ⟨l, hl, hv, f, hf, rfl⟩
    exact ⟨l, hl, hv, f, hf, rfl, rfl⟩
  · intro col links depth
    constructor
    · constructor
      · intro hnone
        by_contra hne
        cases hcs : candsOf col links with
        | nil => exact hne hcs
        | cons c0 rest =>
          rcases pickAux_cases (candsOf col links) none (-1) with
            ⟨heq, hall⟩ | ⟨i, hi, heq, _, _, _⟩
          · have hc0 : c0 ∈ candsOf col links := by
              rw [hcs]; exact List.mem_cons_self _ _
            have := hall c0 hc0
            have := (candScore_bounds hc0).1
            linarith
          · unfold getColumnLineageFor at hnone
            rw [heq] at hnone
            cases hnone
      · intro hempty
        unfold getColumnLineageFor
        rw [hempty]
        rfl
    · intro m hm
      unfold getColumnLineageFor at hm
      rcases pickAux_cases (candsOf col links) none (-1) with
        ⟨heq, _⟩ | ⟨i, hi, heq, _, hle, hstrict⟩
      · rw [heq] at hm; cases hm
      · rw [heq] at hm
        have hmc : m = toBestMatch depth ((candsOf col links).get ⟨i, hi⟩) := by
          simpa using hm.symm
        exact ⟨i, hi, hmc, hle, hstrict⟩

/-- Witness for `C3_upstream_scoring`: a case-insensitive exact match earns
base 0.95, and an empty link list resolves to no match. -/
theorem C3_upstream_scoring_witness :
    baseScore "amount" "AMOUNT" 1 = 19/20 ∧
    getColumnLineageFor "amount" [] 0 = none :=
  ⟨(C3_upstream_scoring.1 "amount" "AMOUNT" 1).2.1 (by decide) (by decide),
   ((C3_upstream_scoring.2.2 "amount" [] 0).1).2 (by decide)⟩

end GovMeta

namespace GovMeta

attribute [local semireducible] Rat.mul Rat.add Rat.sub Rat.inv Rat.ofScientific

lemma rankedPost_props (sugg : List Suggestion)
    (hfl : ∀ s ∈ sugg, (3/10 : ℚ) ≤ s.confidence) :
    (∀ s ∈ rankedPost sugg, (3/10 : ℚ) ≤ s.confidence) ∧
    List.Pairwise (fun a b => b.confidence ≤ a.confidence) (rankedPost sugg) ∧
    (rankedPost sugg).length ≤ 5 ∧
    (∀ t, (rankedPost sugg).head? = some t → (9/20 : ℚ) < t.confidence →
      ∀ s ∈ rankedPost sugg, t.confidence * (7/10) ≤ s.confidence) := by
  have hsorted := sortDesc_sorted sugg
  unfold rankedPost
  dsimp only
  cases hs : sortDesc sugg with
  | nil =>
    refine ⟨?_, ?_, ?_, ?_⟩ <;> simp
  | cons top rest =>
    dsimp only
    rw [hs] at hsorted
    have htopmem : top ∈ sugg := by
      rw [← mem_sortDesc (l := sugg), hs]
      exact List.mem_cons_self _ _
    have htopfl := hfl top htopmem
    have hmem_orig : ∀ s, s ∈ top :: rest → s ∈ sugg := by
      intro s hsm
      rw [← mem_sortDesc (l := sugg), hs]
      exact hsm
    by_cases hc : (9/20 : ℚ) < top.confidence
    · rw [if_pos hc]
      have hptop : (decide (top.confidence * (7/10) ≤ top.confidence)) = true :=
        decide_eq_true (by nlinarith)
      have hfc : (top :: rest).filter
            (fun s => decide (top.confidence * (7/10) ≤ s.confidence))
          = top :: rest.filter
            (fun s => decide (top.confidence * (7/10) ≤ s.confidence)) := by
        rw [List.filter_cons, if_pos hptop]
      rw [hfc, List.take_succ_cons]
      refine ⟨?_, ?_, ?_, ?_⟩
      · intro s hsm
        rcases List.mem_cons.1 hsm with rfl | hsm
        · exact htopfl
        · have := List.mem_filter.1 (List.take_subset _ _ hsm)
          exact hfl s (hmem_orig s (List.mem_cons_of_mem _ this.1))
      · refine List.Pairwise.sublist ?_ hsorted
        exact List.Sublist.cons₂ _
          ((List.take_sublist _ _).trans (List.filter_sublist _))
      · simp only [List.length_cons]
        exact Nat.succ_le_succ (List.length_take_le _ _)
      · intro t ht h45 s hsm
        have htt : top = t := by simp at ht; exact ht
        subst htt
        rcases List.mem_cons.1 hsm with rfl | hsm
        · nlinarith
        · have := List.mem_filter.1 (List.take_subset _ _ hsm)
          exact of_decide_eq_true this.2
    · rw [if_neg hc, List.take_succ_cons]
      refine ⟨?_, ?_, ?_, ?_⟩
      · intro s hsm
        rcases List.mem_cons.1 hsm with rfl | hsm
        · exact htopfl
        · exact hfl s (hmem_orig s (List.mem_cons_of_mem _ (List.take_subset _ _ hsm)))
      · refine List.Pairwise.sublist ?_ hsorted
        exact List.Sublist.cons₂ _ (List.take_sublist _ _)
      · simp only [List.length_cons]
        exact Nat.succ_le_succ (List.length_take_le _ _)
      · intro t ht h45 s hsm
        have htt : top = t := by simp at ht; exact ht
        subst htt
        exact absurd h45 hc

/-- C6: for every column and term list, every returned candidate meets the
0.30 floor, the list is sorted descending by score, holds at most five
entries, and whenever the top score exceeds 0.45 every returned score is at
least 70% of it. -/
theorem C6_ranked_suggestion_properties (cosine : List ℚ → List ℚ → ℚ)
    (termEmbs : String → List ℚ) (col : Column) (allTerms : List Term)
    (colEmb : List ℚ) :
    (∀ s ∈ getRankedSuggestions cosine termEmbs col allTerms colEmb,
      (3/10 : ℚ) ≤ s.confidence) ∧
    List.Pairwise (fun a b => b.confidence ≤ a.confidence)
      (getRankedSuggestions cosine termEmbs col allTerms colEmb) ∧
    (getRankedSuggestions cosine termEmbs col allTerms colEmb).length ≤ 5 ∧
    (∀ t, (getRankedSuggestions cosine termEmbs col allTerms colEmb).head?
        = some t →
      (9/20 : ℚ) < t.confidence →
      ∀ s ∈ getRankedSuggestions cosine termEmbs col allTerms colEmb,
        t.confidence * (7/10) ≤ s.confidence) := by
  unfold getRankedSuggestions
  refine rankedPost_props _ ?_
  intro s hs
  rcases List.mem_filterMap.1 hs with ⟨t, _, hft⟩
  dsimp only at hft
  by_cases hcond : (3/10 : ℚ) ≤ (calculateTotalScore cosine termEmbs col t colEmb).total
  · rw [if_pos hcond] at hft
    cases hft
    exact hcond
  · rw [if_neg hcond] at hft
    cases hft

/-- Witness for `C6_ranked_suggestion_properties`: on a concrete input that
produces a single suggestion of confidence 1.10, the top entry satisfies
the competitive bound. -/
theorem C6_ranked_suggestion_properties_witness :
    ∀ s ∈ getRankedSuggestions (fun _ _ => 0) (fun _ => [])
        ⟨"customer_id", "unique customer identifier"⟩
        [⟨"glossary/terms/customer_id", "Customer Id",
          "unique customer identifier"⟩] [],
      (Suggestion.mk "glossary/terms/customer_id" "Customer Id" (11/10) 1 1).confidence
        * (7/10) ≤ s.confidence :=
  (C6_ranked_suggestion_properties (fun _ _ => 0) (fun _ => [])
      ⟨"customer_id", "unique customer identifier"⟩
      [⟨"glossary/terms/customer_id", "Customer Id",
        "unique customer identifier"⟩] []).2.2.2
    (Suggestion.mk "glossary/terms/customer_id" "Customer Id" (11/10) 1 1)
    (by decide) (by decide)

end GovMeta

namespace GovMeta

attribute [local semireducible] Rat.mul Rat.add Rat.sub Rat.inv Rat.ofScientific

lemma semantic_zero_of_no_embedding_no_desc (cosine : List ℚ → List ℚ → ℚ)
    (termEmbs : String → List ℚ) (col : Column) (term : Term)
    (hdesc : col.description = "") :
    calculateSemanticSimilarity cosine termEmbs col term [] = 0 := by
  unfold calculateSemanticSimilarity
  dsimp only
  rw [show (!(List.isEmpty ([] : List ℚ)) && !(termEmbs term.name).isEmpty) = false
      from rfl]
  rw [if_neg (by simp)]
  rw [if_pos]
  simp [hdesc]

/-- C7 counterexample: for a `transaction_id` column that carries a
description, the claim fails — against the term `Customer Identifier`
described as "Internal ID for customer", a column description of
"Internal ID for customer" lifts the semantic fallback to 1.0 and the
blended score lands exactly on the 0.30 floor (not strictly below it), so
the term is ranked rather than excluded. -/
theorem C7_described_column_counterexample :
    (calculateTotalScore (fun _ _ => 0) (fun _ => [])
        ⟨"transaction_id", "Internal ID for customer"⟩
        ⟨"projects/p/terms/customer_identifier", "Customer Identifier",
         "Internal ID for customer"⟩ []).total = 3/10 ∧
    ¬ ((calculateTotalScore (fun _ _ => 0) (fun _ => [])
        ⟨"transaction_id", "Internal ID for customer"⟩
        ⟨"projects/p/terms/customer_identifier", "Customer Identifier",
         "Internal ID for customer"⟩ []).total < 3/10) ∧
    (getRankedSuggestions (fun _ _ => 0) (fun _ => [])
        ⟨"transaction_id", "Internal ID for customer"⟩
        [⟨"projects/p/terms/customer_identifier", "Customer Identifier",
          "Internal ID for customer"⟩] []).map
        (fun s => (s.term_name, s.confidence))
      = [("projects/p/terms/customer_identifier", 3/10)] := by
  refine ⟨by decide, by decide, by decide⟩

/-- C7 (amended): matching a `transaction_id` column that carries no
description and no embedding against a term whose display name is
`Customer Identifier` (whatever its id and description) detects the
transaction/customer entity conflict, the −0.30 penalty keeps the blended
score strictly below the 0.30 floor, and the term is excluded from the
ranked suggestion list. -/
theorem C7_entity_conflict_floor (cosine : List ℚ → List ℚ → ℚ)
    (termEmbs : String → List ℚ) (tName tDesc : String) :
    (calculateTotalScore cosine termEmbs ⟨"transaction_id", ""⟩
        ⟨tName, "Customer Identifier", tDesc⟩ []).total < 3/10 ∧
    detectEntityConflict "transaction_id" "Customer Identifier"
        (lastSegment '/' tName) = true ∧
    getRankedSuggestions cosine termEmbs ⟨"transaction_id", ""⟩
        [⟨tName, "Customer Identifier", tDesc⟩] [] = [] := by
  have hconf : ∀ tid, detectEntityConflict "transaction_id" "Customer Identifier"
      tid = true := by
    intro tid
    unfold detectEntityConflict
    rw [show getPrimaryEntity "transaction_id" = some "transaction" from by decide,
        show getPrimaryEntity "Customer Identifier" = some "customer" from by decide]
    simp only [Option.orElse]
    decide
  have hsem : calculateSemanticSimilarity cosine termEmbs
      ⟨"transaction_id", ""⟩ ⟨tName, "Customer Identifier", tDesc⟩ [] = 0 :=
    semantic_zero_of_no_embedding_no_desc _ _ _ _ rfl
  have hraw : rawScore cosine termEmbs ⟨"transaction_id", ""⟩
      ⟨tName, "Customer Identifier", tDesc⟩ []
      = calculateLexicalSimilarity "transaction_id" "Customer Identifier"
          (lastSegment '/' tName) * (3/10) - 1/5 := by
    unfold rawScore
    dsimp only
    rw [hsem, hconf (lastSegment '/' tName)]
    rw [show getPrimaryEntity "transaction_id" = some "transaction" from by decide,
        show getPrimaryEntity "Customer Identifier" = some "customer" from by decide,
        show getConcept "transaction_id" = some "id" from by decide,
        show getConcept "Customer Identifier" = some "id" from by decide,
        show interCard (tokSet "transaction_id") (tokSet "Customer Identifier") = 0
          from by decide]
    simp only [Option.orElse]
    rw [if_neg (show ¬("transaction" = "customer") from by decide)]
    norm_num
    ring
  have hlex1 := lexical_le_one "transaction_id" "Customer Identifier"
      (lastSegment '/' tName)
  have htot : (calculateTotalScore cosine termEmbs ⟨"transaction_id", ""⟩
      ⟨tName, "Customer Identifier", tDesc⟩ []).total
      = round2 (max 0 (rawScore cosine termEmbs ⟨"transaction_id", ""⟩
          ⟨tName, "Customer Identifier", tDesc⟩ [])) := rfl
  have hlt : (calculateTotalScore cosine termEmbs ⟨"transaction_id", ""⟩
      ⟨tName, "Customer Identifier", tDesc⟩ []).total < 3/10 := by
    rw [htot]
    have hb : max 0 (rawScore cosine termEmbs ⟨"transaction_id", ""⟩
        ⟨tName, "Customer Identifier", tDesc⟩ []) ≤ 1/10 := by
      apply max_le
      · norm_num
      · rw [hraw]; nlinarith
    have := round2_le (max 0 (rawScore cosine termEmbs ⟨"transaction_id", ""⟩
        ⟨tName, "Customer Identifier", tDesc⟩ []))
    linarith
  refine ⟨hlt, hconf _, ?_⟩
  unfold getRankedSuggestions
  rw [List.filterMap_cons]
  dsimp only
  rw [if_neg (not_le.2 hlt)]
  rfl

end GovMeta
